import Mathlib

/-!
A verification development for the `mail-auth` parsing core: a shallow
embedding of the SPF record parser (`src/spf/parse.rs`) and of the
authenticated-message assembly (`src/common/message.rs`), with theorems
checking the natural-language specification against the code.

Raw bytes are modelled as `List Nat` (each entry one byte value); Rust's
byte-cursor (`Iter<'_, u8>`) becomes explicit list consumption: every
sub-parser returns its result together with the unconsumed suffix.
Saturating machine arithmetic is modelled with explicit `min` against the
type's maximum.
-/

abbrev Bytes := List Nat

namespace MailAuth

/-- Rust `u8::is_ascii_whitespace`: space, tab, newline, form feed, carriage return. -/
def isWS (c : Nat) : Bool :=
  c = 32 || c = 9 || c = 10 || c = 12 || c = 13

/-- `u8` saturating cap. -/
def sat8 (n : Nat) : Nat := min n 255

/-- `u32` saturating cap. -/
def sat32 (n : Nat) : Nat := min n 4294967295

/-! ## SPF data model (`src/spf/mod.rs` shapes, as used by `src/spf/parse.rs`) -/

inductive Qualifier where
  | Pass | Fail | SoftFail | Neutral
  deriving DecidableEq, Repr

inductive Variable where
  | Sender | SenderLocalPart | SenderDomainPart | Domain | Ip | ValidatedDomain
  | IpVersion | HeloDomain | SmtpIp | HostDomain | CurrentTime
  deriving DecidableEq, Repr

/-- The macro-string fragment type: a literal byte run, a `%{...}` variable
reference (letter, `num_parts`, `reverse`, `escape`, delimiter bitmap), or a
list of fragments. -/
inductive Macro where
  | None : Macro
  | Literal : Bytes → Macro
  | Variable : MailAuth.Variable → Nat → Bool → Bool → Nat → Macro
  | List : List Macro → Macro

/-- An IPv4 address as its four octets. -/
abbrev Ipv4Addr := List Nat

/-- An IPv6 address as its eight 16-bit groups. -/
abbrev Ipv6Addr := List Nat

inductive Mechanism where
  | All : Mechanism
  | Include : Macro → Mechanism
  | A : Macro → Nat → Nat → Mechanism
  | Mx : Macro → Nat → Nat → Mechanism
  | Ptr : Macro → Mechanism
  | Ip4 : Ipv4Addr → Nat → Mechanism
  | Ip6 : Ipv6Addr → Nat → Mechanism
  | Exists : Macro → Mechanism

structure Directive where
  qualifier : Qualifier
  mechanism : Mechanism

inductive Modifier where
  | Redirect : Macro → Modifier
  | Explanation : Macro → Modifier

inductive Version where
  | Spf1
  deriving DecidableEq, Repr

structure SPF where
  version : Version
  directives : List Directive
  modifiers : List Modifier

inductive Error where
  | ParseFailed | InvalidRecord | InvalidVersion | InvalidIp4 | InvalidIp6 | InvalidMacro
  deriving DecidableEq, Repr

/-- `Variable::parse`: the variable letter table for ordinary mechanisms
(`(variable, escape)`, uppercase sets `escape`). -/
def Variable.parse (ch : Nat) : Option (Variable × Bool) :=
  if ch = 115 then some (.Sender, false)
  else if ch = 108 then some (.SenderLocalPart, false)
  else if ch = 111 then some (.SenderDomainPart, false)
  else if ch = 100 then some (.Domain, false)
  else if ch = 105 then some (.Ip, false)
  else if ch = 112 then some (.ValidatedDomain, false)
  else if ch = 118 then some (.IpVersion, false)
  else if ch = 104 then some (.HeloDomain, false)
  else if ch = 83 then some (.Sender, true)
  else if ch = 76 then some (.SenderLocalPart, true)
  else if ch = 79 then some (.SenderDomainPart, true)
  else if ch = 68 then some (.Domain, true)
  else if ch = 73 then some (.Ip, true)
  else if ch = 80 then some (.ValidatedDomain, true)
  else if ch = 86 then some (.IpVersion, true)
  else if ch = 72 then some (.HeloDomain, true)
  else none

/-- `Variable::parse_exp`: the superset table for the `exp=` macro, adding
`c`, `r`, `t`. -/
def Variable.parse_exp (ch : Nat) : Option (Variable × Bool) :=
  if ch = 99 then some (.SmtpIp, false)
  else if ch = 114 then some (.HostDomain, false)
  else if ch = 116 then some (.CurrentTime, false)
  else if ch = 67 then some (.SmtpIp, true)
  else if ch = 82 then some (.HostDomain, true)
  else if ch = 84 then some (.CurrentTime, true)
  else Variable.parse ch

/-! ## SPF term lexer (`next_term`) -/

/-- The loop of `next_term`: `q` the qualifier so far, `d` the packed keyword,
`s` the bit shift. Returns the lexed term (packed keyword, qualifier, stop
character) and the unconsumed suffix. -/
def next_term_go : Bytes → Qualifier → Nat → Nat → Option (Nat × Qualifier × Nat) × Bytes
  | [], q, d, _ => (if d ≠ 0 then some (d, q, 32) else none, [])
  | c :: r, q, d, s =>
    if ((97 ≤ c ∧ c ≤ 122) ∨ c = 52 ∨ c = 54) ∧ s < 64 then
      next_term_go r q (d ||| (c <<< s)) (s + 8)
    else if (65 ≤ c ∧ c ≤ 90) ∧ s < 64 then
      next_term_go r q (d ||| ((c - 65 + 97) <<< s)) (s + 8)
    else if c = 43 ∧ s = 0 then next_term_go r .Pass d s
    else if c = 45 ∧ s = 0 then next_term_go r .Fail d s
    else if c = 126 ∧ s = 0 then next_term_go r .SoftFail d s
    else if c = 63 ∧ s = 0 then next_term_go r .Neutral d s
    else if c = 58 ∨ c = 61 ∨ c = 47 then
      (if d ≠ 0 then some (d, q, c) else none, r)
    else if isWS c then
      if s ≠ 0 then (if d ≠ 0 then some (d, q, 32) else none, r)
      else next_term_go r q d s
    else
      next_term_go r q (2 ^ 64 - 1) 64

/-- `SPFParser::next_term`. -/
def next_term (l : Bytes) : Option (Nat × Qualifier × Nat) × Bytes :=
  next_term_go l .Pass 0 0

/-! The packed keyword constants of `spf/parse.rs`. -/

namespace Kw

def A : Nat := 97
def ALL : Nat := (108 <<< 16) ||| (108 <<< 8) ||| 97
def EXISTS : Nat :=
  (115 <<< 40) ||| (116 <<< 32) ||| (115 <<< 24) ||| (105 <<< 16) ||| (120 <<< 8) ||| 101
def EXP : Nat := (112 <<< 16) ||| (120 <<< 8) ||| 101
def INCLUDE : Nat :=
  (101 <<< 48) ||| (100 <<< 40) ||| (117 <<< 32) ||| (108 <<< 24) ||| (99 <<< 16) |||
    (110 <<< 8) ||| 105
def IP4 : Nat := (52 <<< 16) ||| (112 <<< 8) ||| 105
def IP6 : Nat := (54 <<< 16) ||| (112 <<< 8) ||| 105
def MX : Nat := (120 <<< 8) ||| 109
def PTR : Nat := (114 <<< 16) ||| (116 <<< 8) ||| 112
def REDIRECT : Nat :=
  (116 <<< 56) ||| (99 <<< 48) ||| (101 <<< 40) ||| (114 <<< 32) ||| (105 <<< 24) |||
    (100 <<< 16) ||| (101 <<< 8) ||| 114

end Kw

/-! ## Macro-string parser (`macro_string`) -/

/-- The `%{...}` body loop: accumulates `num_parts` (u32-saturating), the
`reverse` flag and the delimiter bitmap until `}` or end of input. -/
def mvar_go : Bytes → Nat → Bool → Nat → Except Error ((Nat × Bool × Nat) × Bytes)
  | [], np, rev, del => .ok ((np, rev, del), [])
  | c :: r, np, rev, del =>
    if 48 ≤ c ∧ c ≤ 57 then
      mvar_go r (sat32 (sat32 (np * 10) + (c - 48))) rev del
    else if c = 114 ∨ c = 82 then mvar_go r np true del
    else if c = 125 then .ok ((np, rev, del), r)
    else if c = 46 ∨ c = 45 ∨ c = 43 ∨ c = 44 ∨ c = 47 ∨ c = 95 ∨ c = 61 then
      mvar_go r np rev (del ||| (1 <<< (c - 43)))
    else .error .InvalidMacro

/-- Appends the pending literal run as a `Macro.Literal` fragment when it is
nonempty (the `if !literal.is_empty()` flushes of `macro_string`). -/
def flushLit (lit : Bytes) (acc : List Macro) : List Macro :=
  if lit = [] then acc else acc ++ [Macro.Literal lit]

/-- The main loop of `macro_string`: `pct` is `last_is_pct`, `lit` the pending
literal run, `acc` the fragments collected so far. Returns the fragment list,
the stop character and the unconsumed suffix. `fuel` bounds the iteration
count; every iteration consumes at least one byte, so `l.length + 1` fuel is
never exhausted. -/
def ms_go (is_exp : Bool) : Nat → Bytes → Bool → Bytes → List Macro →
    Except Error ((List Macro × Nat) × Bytes)
  | 0, _, _, _, _ => .error .ParseFailed
  | _ + 1, [], _, lit, acc => .ok ((flushLit lit acc, 32), [])
  | fuel + 1, c :: r, pct, lit, acc =>
    if c = 37 then
      if pct then ms_go is_exp fuel r false (lit ++ [37]) acc
      else ms_go is_exp fuel r true lit acc
    else if c = 95 ∧ pct then ms_go is_exp fuel r false (lit ++ [32]) acc
    else if c = 45 ∧ pct then ms_go is_exp fuel r false (lit ++ [37, 50, 48]) acc
    else if c = 123 ∧ pct then
      let acc1 := flushLit lit acc
      match r with
      | [] => .error .InvalidMacro
      | lc :: r2 =>
        match (if ¬is_exp then Variable.parse lc else Variable.parse_exp lc) with
        | none => .error .InvalidMacro
        | some (letter, escape) =>
          match mvar_go r2 0 false 0 with
          | .error e => .error e
          | .ok ((np, rev, del), r3) =>
            let del := if del = 0 then 1 <<< (46 - 43) else del
            ms_go is_exp fuel r3 false [] (acc1 ++ [Macro.Variable letter np rev escape del])
    else if c = 47 ∧ ¬is_exp then .ok ((flushLit lit acc, 47), r)
    else
      if pct then .error .InvalidMacro
      else if ¬isWS c ∨ is_exp then ms_go is_exp fuel r false (lit ++ [c]) acc
      else .ok ((flushLit lit acc, 32), r)

/-- `SPFParser::macro_string`: a single fragment collapses to itself, zero
fragments is `ParseFailed`, several become a `Macro.List`. -/
def macro_string (is_exp : Bool) (l : Bytes) : Except Error ((Macro × Nat) × Bytes) :=
  match ms_go is_exp (l.length + 1) l false [] [] with
  | .error e => .error e
  | .ok ((frags, stop), r) =>
    match frags with
    | [m] => .ok ((m, stop), r)
    | [] => .error .ParseFailed
    | ms => .ok ((Macro.List ms, stop), r)

/-! ## IPv4 / IPv6 literal parsers -/

/-- The loop of `ip4`: four octets accumulated with u8-saturating arithmetic,
`pos` counts the dots consumed. -/
def ip4_go : Bytes → List Nat → Nat → (List Nat × Nat × Nat) × Bytes
  | [], ip, pos => ((ip, pos, 32), [])
  | c :: r, ip, pos =>
    if 48 ≤ c ∧ c ≤ 57 then
      ip4_go r (ip.set pos (sat8 (sat8 (ip.getD pos 0 * 10) + (c - 48)))) pos
    else if c = 46 ∧ pos < 3 then ip4_go r ip (pos + 1)
    else ((ip, pos, if isWS c then 32 else c), r)

/-- `SPFParser::ip4`: fails with `InvalidIp4` unless exactly 3 dots were
consumed before the terminator. -/
def ip4 (l : Bytes) : Except Error ((Ipv4Addr × Nat) × Bytes) :=
  match ip4_go l [0, 0, 0, 0] 0 with
  | ((ip, pos, stop), r) =>
    if pos = 3 then .ok ((ip, stop), r) else .error .InvalidIp4

/-- Whether `c` is an ASCII hex digit (the character class of the `ip6` hex
branch). -/
def isHexDigit (c : Nat) : Bool :=
  (48 ≤ c && c ≤ 57) || (97 ≤ c && c ≤ 102) || (65 ≤ c && c ≤ 70)

/-- The numeric value of a hex-digit byte. -/
def hexVal (c : Nat) : Nat :=
  if 48 ≤ c ∧ c ≤ 57 then c - 48
  else if 97 ≤ c ∧ c ≤ 102 then c - 87
  else if 65 ≤ c ∧ c ≤ 70 then c - 55
  else 0

/-- `u16::from_str_radix(_, 16)` on at most four hex-digit bytes: cannot
overflow or fail, so it is the plain positional value. -/
def hexParse (part : Bytes) : Nat :=
  part.foldl (fun a c => 16 * a + hexVal c) 0

/-- `str::parse::<u8>` on the collected part bytes: every byte must be a
decimal digit and the value at most 255 (the part has at most 4 bytes, so the
Nat value is exact). -/
def decParse (part : Bytes) : Option Nat :=
  if part.all (fun c => 48 ≤ c && c ≤ 57) then
    let v := part.foldl (fun a c => 10 * a + (c - 48)) 0
    if v ≤ 255 then some v else none
  else none

/-- The `::` expansion of `ip6`: `copy_within(z..p, z+8-p)` then zero-fill
`z..z+8-p`. -/
def ip6Expand (ip : List Nat) (z p : Nat) : List Nat :=
  ip.take z ++ List.replicate (8 - p) 0 ++ (ip.drop z).take (p - z)

/-- The after-loop tail of `ip6`: flush a pending part (hex group or final
dotted-quad octet), expand the `::` run, and reject an empty parse. -/
def ip6_finish (stop : Nat) (rest : Bytes) (ip : List Nat) (pos q4 : Nat)
    (part : Bytes) (zgp : Option Nat) : Except Error ((Ipv6Addr × Nat) × Bytes) :=
  (match part, pos, q4 with
    | [], _, _ => Except.ok (ip, pos)
    | _ :: _, pos, q4 =>
      if pos < 8 then
        if q4 = 0 then Except.ok (ip.set pos (hexParse part), pos + 1)
        else if q4 = 3 then
          match decParse part with
          | some q => Except.ok (ip.set pos ((ip.getD pos 0 <<< 8) ||| q), pos + 1)
          | none => Except.error Error.InvalidIp6
        else Except.error Error.InvalidIp6
      else Except.error Error.InvalidIp6).bind
    fun (ip, pos) =>
      (match zgp with
        | some z =>
          if z < pos then
            if pos < 7 then Except.ok (ip6Expand ip z pos) else Except.error Error.InvalidIp6
          else Except.ok ip
        | none => Except.ok ip).bind
        fun ip =>
          if pos ≠ 0 ∨ zgp ≠ none then Except.ok ((ip, stop), rest)
          else Except.error Error.InvalidIp6

/-- The loop of `ip6`: `ip` the eight groups so far, `pos` = `ip_pos`,
`q4` = `ip4_pos`, `part` = `ip_part`, `zgp` the `::` position (`none` for
`usize::MAX`). -/
def ip6_go : Bytes → List Nat → Nat → Nat → Bytes → Option Nat →
    Except Error ((Ipv6Addr × Nat) × Bytes)
  | [], ip, pos, q4, part, zgp => ip6_finish 32 [] ip pos q4 part zgp
  | c :: r, ip, pos, q4, part, zgp =>
    if isHexDigit c then
      if part.length < 4 then ip6_go r ip pos q4 (part ++ [c]) zgp
      else .error .InvalidIp6
    else if c = 58 then
      if pos < 8 then
        if part ≠ [] then ip6_go r (ip.set pos (hexParse part)) (pos + 1) q4 [] zgp
        else
          match zgp with
          | none => ip6_go r ip pos q4 [] (some pos)
          | some z => if z ≠ pos then .error .InvalidIp6 else ip6_go r ip pos q4 [] zgp
      else .error .InvalidIp6
    else if c = 46 then
      if pos < 8 ∧ part ≠ [] then
        match decParse part with
        | none => .error .InvalidIp6
        | some q =>
          if q4 % 2 = 1 then ip6_go r (ip.set pos ((ip.getD pos 0 <<< 8) ||| q)) (pos + 1) (q4 + 1) [] zgp
          else ip6_go r (ip.set pos q) pos (q4 + 1) [] zgp
      else .error .InvalidIp6
    else ip6_finish (if isWS c then 32 else c) r ip pos q4 part zgp

/-- `SPFParser::ip6`. -/
def ip6 (l : Bytes) : Except Error ((Ipv6Addr × Nat) × Bytes) :=
  ip6_go l [0, 0, 0, 0, 0, 0, 0, 0] 0 0 [] none

/-! ## CIDR-length parsers -/

/-- The loop of `cidr_length`: u8-saturating decimal accumulation; a
non-digit, non-whitespace byte is `ParseFailed`. -/
def cidr_go : Bytes → Nat → Except Error (Nat × Bytes)
  | [], acc => .ok (acc, [])
  | c :: r, acc =>
    if 48 ≤ c ∧ c ≤ 57 then cidr_go r (sat8 (sat8 (acc * 10) + (c - 48)))
    else if isWS c then .ok (acc, r)
    else .error .ParseFailed

/-- `SPFParser::cidr_length`. -/
def cidr_length (l : Bytes) : Except Error (Nat × Bytes) := cidr_go l 0

/-- The loop of `dual_cidr_length`: 255 (`u8::MAX`) is the "unset" sentinel
for each length; a second `/` after ip6 digits is `ParseFailed`. -/
def dual_go : Bytes → Nat → Nat → Bool → Except Error ((Nat × Nat) × Bytes)
  | [], a4, a6, _ => .ok ((min a4 32, min a6 128), [])
  | c :: r, a4, a6, in6 =>
    if 48 ≤ c ∧ c ≤ 57 then
      if in6 then
        dual_go r a4 (if a6 ≠ 255 then sat8 (sat8 (a6 * 10) + (c - 48)) else c - 48) in6
      else
        dual_go r (if a4 ≠ 255 then sat8 (sat8 (a4 * 10) + (c - 48)) else c - 48) a6 in6
    else if c = 47 then
      if ¬in6 then dual_go r a4 a6 true
      else if a6 ≠ 255 then .error .ParseFailed
      else dual_go r a4 a6 in6
    else if isWS c then .ok ((min a4 32, min a6 128), r)
    else .error .ParseFailed

/-- `SPFParser::dual_cidr_length`: unset fields default through the clamp to
32 / 128. -/
def dual_cidr_length (l : Bytes) : Except Error ((Nat × Nat) × Bytes) :=
  dual_go l 255 255 false

/-! ## SPF record parser (`SPF::parse`) -/

/-- Modelled from the spec: `TagParser::key` of `src/common/parse.rs` is not
among the provided sources. Following the spec's "the very first key-value
pair" and the packed-keyword idiom, it packs the lowercased ASCII letters of
the tag name low-byte-first, consuming through `=`; a non-letter before `=`
or end of input yields no key. -/
def key_go : Bytes → Nat → Nat → Option Nat × Bytes
  | [], _, _ => (none, [])
  | c :: r, d, s =>
    if c = 61 then (some d, r)
    else if (97 ≤ c ∧ c ≤ 122) ∧ s < 64 then key_go r (d ||| (c <<< s)) (s + 8)
    else if (65 ≤ c ∧ c ≤ 90) ∧ s < 64 then key_go r (d ||| ((c - 65 + 97) <<< s)) (s + 8)
    else (none, c :: r)

/-- Modelled from the spec: the record's leading key read (`record.key()`). -/
def key (l : Bytes) : Option Nat × Bytes := key_go l 0 0

/-- Modelled from the spec: `TagParser::match_bytes` consumes and compares
the given bytes exactly (what is left after a mismatch is irrelevant — the
caller fails the record at once). -/
def match_bytes : Bytes → Bytes → Bool × Bytes
  | [], l => (true, l)
  | _ :: _, [] => (false, [])
  | p :: ps, c :: r => if c = p then match_bytes ps r else (false, c :: r)

/-- Pushes a directive (`spf.directives.push`). -/
def pushDir (spf : SPF) (q : Qualifier) (m : Mechanism) : SPF :=
  { spf with directives := spf.directives ++ [⟨q, m⟩] }

/-- Pushes a modifier (`spf.modifiers.push`). -/
def pushMod (spf : SPF) (m : Modifier) : SPF :=
  { spf with modifiers := spf.modifiers ++ [m] }

/-- The shared push of the `A | MX` arm: which of the two mechanisms is
built depends on the matched keyword. -/
def mkAorMx (term : Nat) (ms : Macro) (c4 c6 : Nat) : Mechanism :=
  if term = Kw.A then .A ms c4 c6 else .Mx ms c4 c6

/-- The `while let Some(...) = record.next_term()` loop of `SPF::parse`.
`fuel` bounds the iteration count; every iteration consumes at least one
byte, so `l.length + 1` fuel is never exhausted. -/
def parseTerms : Nat → Bytes → SPF → Except Error SPF
  | 0, _, _ => .error .ParseFailed
  | fuel + 1, l, spf =>
    match next_term l with
    | (none, _) => .ok spf
    | (some (term, qualifier, stop0), l1) =>
      if term = Kw.A ∨ term = Kw.MX then
        if stop0 = 32 then
          parseTerms fuel l1 (pushDir spf qualifier (mkAorMx term Macro.None 32 128))
        else if stop0 = 58 ∨ stop0 = 61 then
          match macro_string false l1 with
          | .error e => .error e
          | .ok ((ms, stop1), l2) =>
            if stop1 = 47 then
              match dual_cidr_length l2 with
              | .error e => .error e
              | .ok ((c4, c6), l3) =>
                parseTerms fuel l3 (pushDir spf qualifier (mkAorMx term ms c4 c6))
            else if stop1 ≠ 32 then .error .ParseFailed
            else parseTerms fuel l2 (pushDir spf qualifier (mkAorMx term ms 32 128))
        else if stop0 = 47 then
          match dual_cidr_length l1 with
          | .error e => .error e
          | .ok ((c4, c6), l2) =>
            parseTerms fuel l2 (pushDir spf qualifier (mkAorMx term Macro.None c4 c6))
        else .error .ParseFailed
      else if term = Kw.ALL then
        if stop0 = 32 then parseTerms fuel l1 (pushDir spf qualifier .All)
        else .error .ParseFailed
      else if term = Kw.INCLUDE ∨ term = Kw.EXISTS then
        if stop0 ≠ 58 then .error .ParseFailed
        else
          match macro_string false l1 with
          | .error e => .error e
          | .ok ((ms, stop1), l2) =>
            if stop1 = 32 then
              parseTerms fuel l2 (pushDir spf qualifier
                (if term = Kw.INCLUDE then .Include ms else .Exists ms))
            else .error .ParseFailed
      else if term = Kw.IP4 then
        if stop0 ≠ 58 then .error .ParseFailed
        else
          match ip4 l1 with
          | .error e => .error e
          | .ok ((addr, stop1), l2) =>
            if stop1 = 47 then
              match cidr_length l2 with
              | .error e => .error e
              | .ok (cl, l3) =>
                parseTerms fuel l3 (pushDir spf qualifier (.Ip4 addr (min 32 cl)))
            else if stop1 ≠ 32 then .error .ParseFailed
            else parseTerms fuel l2 (pushDir spf qualifier (.Ip4 addr 32))
      else if term = Kw.IP6 then
        if stop0 ≠ 58 then .error .ParseFailed
        else
          match ip6 l1 with
          | .error e => .error e
          | .ok ((addr, stop1), l2) =>
            if stop1 = 47 then
              match cidr_length l2 with
              | .error e => .error e
              | .ok (cl, l3) =>
                parseTerms fuel l3 (pushDir spf qualifier (.Ip6 addr (min 128 cl)))
            else if stop1 ≠ 32 then .error .ParseFailed
            else parseTerms fuel l2 (pushDir spf qualifier (.Ip6 addr 128))
      else if term = Kw.PTR then
        if stop0 = 58 then
          match macro_string false l1 with
          | .error e => .error e
          | .ok ((ms, stop1), l2) =>
            if stop1 = 32 then parseTerms fuel l2 (pushDir spf qualifier (.Ptr ms))
            else .error .ParseFailed
        else if stop0 = 32 then parseTerms fuel l1 (pushDir spf qualifier (.Ptr Macro.None))
        else .error .ParseFailed
      else if term = Kw.EXP ∨ term = Kw.REDIRECT then
        if stop0 ≠ 61 then .error .ParseFailed
        else
          match macro_string false l1 with
          | .error e => .error e
          | .ok ((ms, stop1), l2) =>
            if stop1 ≠ 32 then .error .ParseFailed
            else
              parseTerms fuel l2 (pushMod spf
                (if term = Kw.REDIRECT then .Redirect ms else .Explanation ms))
      else
        match macro_string false l1 with
        | .error e => .error e
        | .ok ((_, stop1), l2) =>
          if stop1 ≠ 32 then .error .ParseFailed
          else parseTerms fuel l2 spf

/-- `SPF::parse`. -/
def SPF.parse (bytes : Bytes) : Except Error SPF :=
  match key bytes with
  | (k, r1) =>
    if k ≠ some 118 then .error .InvalidRecord
    else
      match match_bytes [115, 112, 102, 49] r1 with
      | (m, r2) =>
        if ¬m then .error .InvalidVersion
        else
          match r2 with
          | [] => parseTerms 1 [] ⟨.Spf1, [], []⟩
          | c :: r3 =>
            if ¬isWS c then .error .InvalidVersion
            else parseTerms (r3.length + 1) r3 ⟨.Spf1, [], []⟩

/-! ## Authenticated message assembly (`src/common/message.rs`)

The header stream (`HeaderParser`), the DKIM/ARC descriptor parsers and the
canonicalization hashers live in repository modules that are not among the
provided sources; following the spec they are modelled as abstract
collaborators (`Collab`) over which the assembly logic is parameterized. -/

inductive HashAlgorithm where
  | Sha1 | Sha256
  deriving DecidableEq, Repr

/-- Modelled from the spec: the signing-algorithm enumeration of the `dkim`
module (not among the provided sources); the spec names "a 256-bit and a
160-bit construction". -/
inductive Algorithm where
  | RsaSha1 | RsaSha256 | Ed25519Sha256
  deriving DecidableEq, Repr

/-- `HashAlgorithm::from(signature.a)`. -/
def HashAlgorithm.ofAlg : Algorithm → HashAlgorithm
  | .RsaSha1 => .Sha1
  | .RsaSha256 => .Sha256
  | .Ed25519Sha256 => .Sha256

/-- Modelled from the spec: a DKIM signature descriptor, reduced to the
fields `AuthenticatedMessage::parse` reads: body canonicalization `cb`
(abstract identifier), signing algorithm `a`, body length limit `l`. -/
structure DkimSig where
  cb : Nat
  a : Algorithm
  l : Nat

/-- Modelled from the spec: an ARC-Message-Signature descriptor (as
`DkimSig`, plus the signature-instance number `i`). -/
structure ArcSig where
  cb : Nat
  a : Algorithm
  l : Nat
  i : Nat

/-- Modelled from the spec: an ARC-Seal descriptor, reduced to its
signature-instance number `i`. -/
structure Seal where
  i : Nat

/-- Modelled from the spec: an ARC-Authentication-Results descriptor,
reduced to its signature-instance number `i`. -/
structure Results where
  i : Nat

/-- `AuthenticatedHeader`: the classification of one header by name, carrying
the raw name bytes. -/
inductive AuthenticatedHeader where
  | Ds : Bytes → AuthenticatedHeader
  | Aar : Bytes → AuthenticatedHeader
  | Ams : Bytes → AuthenticatedHeader
  | As : Bytes → AuthenticatedHeader
  | From : Bytes → AuthenticatedHeader
  | Other : Bytes → AuthenticatedHeader

/-- `Header::new(name, value, parse result)`; parse failures are retained
with an abstract reason code. -/
structure Header (α : Type) where
  name : Bytes
  value : Bytes
  header : Except Nat α

structure AuthenticatedMessage where
  headers : List (Bytes × Bytes)
  from_addrs : List Bytes
  body : Bytes
  body_hashes : List (Nat × HashAlgorithm × Nat × Bytes)
  dkim_headers : List (Header DkimSig)
  ams_headers : List (Header ArcSig)
  as_headers : List (Header Seal)
  aar_headers : List (Header Results)

/-- Modelled from the spec: the external collaborators of §6 — the four
per-header descriptor parsers, the `From` address-list extraction (already
lowercased), and the canonicalization body hasher per hash algorithm. -/
structure Collab where
  dkim_parse : Bytes → Except Nat DkimSig
  ams_parse : Bytes → Except Nat ArcSig
  seal_parse : Bytes → Except Nat Seal
  aar_parse : Bytes → Except Nat Results
  from_parse : Bytes → List Bytes
  hash_body : HashAlgorithm → Nat → Nat → Bytes → Option Bytes

/-- `Result::is_err`. -/
def isErrE {ε α : Type} : Except ε α → Bool
  | .error _ => true
  | .ok _ => false

/-- The insert-if-absent of the body-hash work list: push
`(cb, ha, l, empty)` unless an entry with the same key tuple exists. -/
def bhInsert (bhs : List (Nat × HashAlgorithm × Nat × Bytes))
    (cb : Nat) (ha : HashAlgorithm) (l : Nat) :
    List (Nat × HashAlgorithm × Nat × Bytes) :=
  if bhs.any (fun e => e.1 == cb && e.2.1 == ha && e.2.2.1 == l) then bhs
  else bhs ++ [(cb, ha, l, [])]

/-- One iteration of the header-classification loop of
`AuthenticatedMessage::parse`: the message built so far plus the sticky
`has_arc_errors` flag. -/
def collectStep (P : Collab) (acc : AuthenticatedMessage × Bool)
    (hv : AuthenticatedHeader × Bytes) : AuthenticatedMessage × Bool :=
  let message := acc.1
  let has_arc_errors := acc.2
  let value := hv.2
  match hv.1 with
  | .Ds name =>
    let signature := P.dkim_parse value
    let message :=
      match signature with
      | .ok s =>
        { message with
          body_hashes := bhInsert message.body_hashes s.cb (HashAlgorithm.ofAlg s.a) s.l }
      | .error _ => message
    ({ message with
        dkim_headers := message.dkim_headers ++ [⟨name, value, signature⟩],
        headers := message.headers ++ [(name, value)] },
      has_arc_errors)
  | .Aar name =>
    let results := P.aar_parse value
    let has_arc_errors := if ¬has_arc_errors then isErrE results else has_arc_errors
    ({ message with
        aar_headers := message.aar_headers ++ [⟨name, value, results⟩],
        headers := message.headers ++ [(name, value)] },
      has_arc_errors)
  | .Ams name =>
    let signature := P.ams_parse value
    let (message, has_arc_errors) :=
      match signature with
      | .ok s =>
        ({ message with
            body_hashes := bhInsert message.body_hashes s.cb (HashAlgorithm.ofAlg s.a) s.l },
          has_arc_errors)
      | .error _ => (message, true)
    ({ message with
        ams_headers := message.ams_headers ++ [⟨name, value, signature⟩],
        headers := message.headers ++ [(name, value)] },
      has_arc_errors)
  | .As name =>
    let sl := P.seal_parse value
    let has_arc_errors := if ¬has_arc_errors then isErrE sl else has_arc_errors
    ({ message with
        as_headers := message.as_headers ++ [⟨name, value, sl⟩],
        headers := message.headers ++ [(name, value)] },
      has_arc_errors)
  | .From name =>
    ({ message with
        from_addrs := message.from_addrs ++ P.from_parse value,
        headers := message.headers ++ [(name, value)] },
      has_arc_errors)
  | .Other name =>
    ({ message with headers := message.headers ++ [(name, value)] }, has_arc_errors)

/-- The empty `AuthenticatedMessage` the parse starts from. -/
def emptyMessage : AuthenticatedMessage :=
  { headers := [], from_addrs := [], body := [], body_hashes := [],
    dkim_headers := [], ams_headers := [], as_headers := [], aar_headers := [] }

/-- The whole header-classification loop. -/
def collect (P : Collab) (hdrs : List (AuthenticatedHeader × Bytes)) :
    AuthenticatedMessage × Bool :=
  hdrs.foldl (collectStep P) (emptyMessage, false)

/-- The instance number the ARC sort compares: `header.as_ref().unwrap().i`
(the sort only runs when every ARC parse succeeded, so the `unwrap` never
observes the error default). -/
def instOf {α : Type} (gi : α → Nat) (h : Header α) : Nat :=
  match h.header with
  | .ok s => gi s
  | .error _ => 0

/-- One executable implementation admissible for the standard library's
`sort_unstable_by` (which lives outside this repository): an insertion sort
on the instance number. Nothing may rely on any property of it beyond the
`sort_unstable_by` contract (`SortOk` below); statements about the sorting
behaviour of the parse quantify over every contract-satisfying routine via
`parseWith`. -/
def sortByInst {α : Type} (gi : α → Nat) (hs : List (Header α)) : List (Header α) :=
  @List.insertionSort _ (fun a b => instOf gi a ≤ instOf gi b)
    (fun _ _ => Nat.decLe _ _) hs

/-- The documented contract of `sort_unstable_by` under the instance-number
comparator: the output is sorted by the comparator and is a permutation of
the input — and nothing more; the relative order of equal elements is
unspecified. -/
def SortOk (srt : {α : Type} → (α → Nat) → List (Header α) → List (Header α)) : Prop :=
  ∀ (α : Type) (gi : α → Nat) (hs : List (Header α)),
    List.Sorted (fun a b => instOf gi a ≤ instOf gi b) (srt gi hs)
    ∧ List.Perm (srt gi hs) hs

/-- A second admissible implementation of the `sort_unstable_by` contract:
reverse, then insertion sort. It is sorted and a permutation, but reverses
the relative order of equal-instance headers. -/
def sortByInstRev {α : Type} (gi : α → Nat) (hs : List (Header α)) : List (Header α) :=
  sortByInst gi hs.reverse

/-- The per-tuple digest computation of the body-hash pass:
`cb.hash_body::<Sha256/Sha1>(body, l)` with `unwrap_or_default`. -/
def computeHash (P : Collab) (cb : Nat) (ha : HashAlgorithm) (l : Nat) (body : Bytes) : Bytes :=
  (match ha with
    | .Sha256 => P.hash_body .Sha256 cb l body
    | .Sha1 => P.hash_body .Sha1 cb l body).getD []

/-- `AuthenticatedMessage::parse`, over the pre-classified header stream and
the body byte range (both delivered by the external `HeaderParser`), and
parameterized by the sorting routine `srt` standing for the standard
library's `sort_unstable_by` (external code of which only the `SortOk`
contract is guaranteed). -/
def parseWith (srt : {α : Type} → (α → Nat) → List (Header α) → List (Header α))
    (P : Collab) (hdrs : List (AuthenticatedHeader × Bytes))
    (raw_body : Bytes) : Option AuthenticatedMessage :=
  let c := collect P hdrs
  let message := c.1
  let has_arc_errors := c.2
  if message.headers = [] then none
  else
    let message := { message with body := raw_body }
    let message :=
      { message with
        body_hashes := message.body_hashes.map
          (fun e => (e.1, e.2.1, e.2.2.1, computeHash P e.1 e.2.1 e.2.2.1 raw_body)) }
    let message :=
      if !message.as_headers.isEmpty && !has_arc_errors then
        { message with
          as_headers := srt Seal.i message.as_headers,
          ams_headers := srt ArcSig.i message.ams_headers,
          aar_headers := srt Results.i message.aar_headers }
      else message
    some message

/-- `AuthenticatedMessage::parse` itself: `parseWith` at the executable
admissible sort `sortByInst`. -/
def AuthenticatedMessage.parse (P : Collab) (hdrs : List (AuthenticatedHeader × Bytes))
    (raw_body : Bytes) : Option AuthenticatedMessage :=
  parseWith (fun {α} gi hs => @sortByInst α gi hs) P hdrs raw_body

/-! ## Support definitions for the verification theorems -/

/-- ASCII bytes of a string literal. -/
def str2bytes (s : String) : Bytes := s.toList.map Char.toNat

/-- A predicate following the spec's words for the record opening: a `v` key,
the version tag exactly `spf1`, then end of input or a whitespace byte. Used
to compare `SPF.parse`'s acceptance against the spec's version-gate wording. -/
def version_tag_ok (bs : Bytes) : Bool :=
  match key bs with
  | (some k, r1) =>
    if k = 118 then
      match match_bytes [115, 112, 102, 49] r1 with
      | (true, []) => true
      | (true, c :: _) => isWS c
      | (false, _) => false
    else false
  | (none, _) => false

/-- The CIDR clamp invariant of the spec: stored IPv4 prefix lengths never
exceed 32 and stored IPv6 prefix lengths never exceed 128. -/
def cidrOk : Mechanism → Prop
  | .A _ c4 c6 => c4 ≤ 32 ∧ c6 ≤ 128
  | .Mx _ c4 c6 => c4 ≤ 32 ∧ c6 ≤ 128
  | .Ip4 _ c => c ≤ 32
  | .Ip6 _ c => c ≤ 128
  | _ => True

/-- A textual IPv6 group of the standard grammar: one to four hex digits. -/
def hexGroup (ds : Bytes) : Prop :=
  ds ≠ [] ∧ ds.length ≤ 4 ∧ ∀ c ∈ ds, isHexDigit c = true

instance (ds : Bytes) : Decidable (hexGroup ds) := by
  unfold hexGroup
  infer_instance

/-- The standard full textual form: the groups joined by `:`. -/
def joinColon : List Bytes → Bytes
  | [] => []
  | [g] => g
  | g :: gs => g ++ 58 :: joinColon gs

/-- The `(canonicalization, hash-algorithm, length-limit)` key of a
body-hash entry. -/
def bhKey (e : Nat × HashAlgorithm × Nat × Bytes) : Nat × HashAlgorithm × Nat :=
  (e.1, e.2.1, e.2.2.1)

/-- The key tuple one classified header requests: the tuple of a
successfully parsed DKIM-Signature or ARC-Message-Signature, nothing
otherwise. -/
def reqOf (P : Collab) (hv : AuthenticatedHeader × Bytes) :
    Option (Nat × HashAlgorithm × Nat) :=
  match hv.1 with
  | .Ds _ =>
    match P.dkim_parse hv.2 with
    | .ok s => some (s.cb, HashAlgorithm.ofAlg s.a, s.l)
    | .error _ => none
  | .Ams _ =>
    match P.ams_parse hv.2 with
    | .ok s => some (s.cb, HashAlgorithm.ofAlg s.a, s.l)
    | .error _ => none
  | _ => none

/-- The key tuples requested by the successfully parsed DKIM-Signature and
ARC-Message-Signature headers of a stream, in encounter order. -/
def requestedTuples (P : Collab) (hdrs : List (AuthenticatedHeader × Bytes)) :
    List (Nat × HashAlgorithm × Nat) :=
  hdrs.filterMap (reqOf P)

/-- Concrete collaborators used to witness the message-side theorems: the
value bytes encode whether a header parses and which instance it carries. -/
def testCollab : Collab where
  dkim_parse := fun v => if v = [1] then .ok ⟨1, .RsaSha1, 2⟩ else .error 7
  ams_parse := fun v => if v = [2] then .ok ⟨3, .RsaSha256, 4, 2⟩ else .error 8
  seal_parse := fun v => match v with | [i] => .ok ⟨i⟩ | _ => .error 9
  aar_parse := fun v => match v with | [i] => .ok ⟨i⟩ | _ => .error 10
  from_parse := fun _ => []
  hash_body := fun _ _ _ _ => none

/-- Two ARC-Seal headers carrying instance numbers 2 and 1, in that order
(under `testCollab` the value byte is the instance number). -/
def arcHdrs : List (AuthenticatedHeader × Bytes) :=
  [(.As [1], [2]), (.As [2], [1])]

/-! ## Theorems -/

/-- C1 (counterexample): the input `"v=spf1 "` — a well-formed version tag
with nothing after it — parses successfully to a record with no directives
and no modifiers, contradicting the claim that such an input fails. -/
theorem spf_parse_accepts_empty_record :
    SPF.parse (str2bytes "v=spf1 ") = .ok ⟨.Spf1, [], []⟩ := rfl

/-- C1 (amended): every successful `SPF::parse` begins with a well-formed
`v=spf1` version tag (a malformed tag never yields a record), but a tag with
no terms at all is accepted: `"v=spf1"` parses to the empty record. -/
theorem spf_parse_version_gate :
    (∀ (bs : Bytes) (r : SPF), SPF.parse bs = .ok r → version_tag_ok bs = true)
    ∧ SPF.parse (str2bytes "v=spf1") = .ok ⟨.Spf1, [], []⟩ := by
  refine ⟨?_, rfl⟩
  intro bs r h
  rcases hk : key bs with ⟨k, r1⟩
  simp only [SPF.parse, hk] at h
  simp only [version_tag_ok, hk]
  cases k with
  | none => simp at h
  | some k =>
    by_cases h118 : k = 118
    · subst h118
      simp only [ne_eq, not_true_eq_false, if_false, if_pos rfl] at h ⊢
      rcases hmb : match_bytes [115, 112, 102, 49] r1 with ⟨m, r2⟩
      simp only [hmb] at h ⊢
      cases m with
      | false => simp at h
      | true =>
        simp only [Bool.not_true, Bool.false_eq_true, if_false] at h
        cases r2 with
        | nil => rfl
        | cons c r3 =>
          by_cases hws : isWS c
          · simpa using hws
          · simp [hws] at h
    · simp [h118] at h

/-- C1 (witness for the amended theorem). -/
theorem spf_parse_version_gate_witness :
    version_tag_ok (str2bytes "v=spf1 -all") = true :=
  spf_parse_version_gate.1 (str2bytes "v=spf1 -all") ⟨.Spf1, [⟨.Fail, .All⟩], []⟩ rfl

/-- C5: the macro-string `"%{l1r+}.%{d}"` parses to exactly
`[Variable(SenderLocalPart, 1 part, reverse, delimiters {+}), Literal ".",
Variable(Domain, all parts, no reverse, delimiters {.})]`, and the escapes
`%%`, `%_`, `%-` become the literal bytes `%`, a space, and `%20`. -/
theorem macro_string_examples :
    macro_string false (str2bytes "%{l1r+}.%{d}") =
      .ok ((Macro.List [Macro.Variable .SenderLocalPart 1 true false 1,
        Macro.Literal [46], Macro.Variable .Domain 0 false false 8], 32), [])
    ∧ macro_string false (str2bytes "%%") = .ok ((Macro.Literal [37], 32), [])
    ∧ macro_string false (str2bytes "%_") = .ok ((Macro.Literal [32], 32), [])
    ∧ macro_string false (str2bytes "%-") = .ok ((Macro.Literal [37, 50, 48], 32), []) :=
  ⟨rfl, rfl, rfl, rfl⟩

/-- C7: an unrecognized keyword with a well-formed macro-string argument is
consumed and dropped — `"v=spf1 unknown:foo -all"` parses to exactly
`[Fail All]` with no modifiers — while an unrecognized keyword with a
malformed argument still fails the whole record. -/
theorem spf_parse_unknown_keyword :
    SPF.parse (str2bytes "v=spf1 unknown:foo -all") = .ok ⟨.Spf1, [⟨.Fail, .All⟩], []⟩
    ∧ SPF.parse (str2bytes "v=spf1 unknown:%{x} -all") = .error .InvalidMacro :=
  ⟨rfl, rfl⟩

/-- On an argument made only of literal-safe bytes (no `%`, no `/`, no
whitespace), the macro-string loop consumes everything into the pending
literal run and stops at end of input. -/
theorem ms_go_literal :
    ∀ (w : Bytes) (fuel : Nat) (lit : Bytes) (acc : List Macro),
      w.length < fuel →
      (∀ c ∈ w, c ≠ 37 ∧ c ≠ 47 ∧ isWS c = false) →
      ms_go false fuel w false lit acc = .ok ((flushLit (lit ++ w) acc, 32), []) := by
  intro w
  induction w with
  | nil =>
    intro fuel lit acc hf _
    match fuel, hf with
    | f + 1, _ => simp [ms_go]
  | cons c t ih =>
    intro fuel lit acc hf hsafe
    match fuel, hf with
    | f + 1, hf =>
      obtain ⟨h37, h47, hws⟩ := hsafe c (List.mem_cons_self _ _)
      have ht : ∀ x ∈ t, x ≠ 37 ∧ x ≠ 47 ∧ isWS x = false := fun x hx =>
        hsafe x (List.mem_cons_of_mem _ hx)
      have hrec := ih f (lit ++ [c]) acc (Nat.lt_of_succ_lt_succ hf) ht
      simp only [ms_go]
      rw [if_neg h37, if_neg (by simp), if_neg (by simp), if_neg (by simp),
        if_neg (by simp [h47]), if_neg (by simp), if_pos (by simp [hws])]
      rw [hrec]
      simp [List.append_assoc]

/-- C8: an unrecognized keyword terminated by whitespace still routes through
the macro-string parser, which consumes and discards the next term: for any
literal-safe nonempty `w`, `"v=spf1 foo " ++ w` parses to the empty record —
in particular `"v=spf1 foo -all"` silently drops the `-all` directive. -/
theorem spf_parse_unknown_bare_term :
    (∀ w : Bytes, w ≠ [] → (∀ c ∈ w, c ≠ 37 ∧ c ≠ 47 ∧ isWS c = false) →
        SPF.parse (str2bytes "v=spf1 foo " ++ w) = .ok ⟨.Spf1, [], []⟩)
    ∧ SPF.parse (str2bytes "v=spf1 foo -all") = .ok ⟨.Spf1, [], []⟩ := by
  refine ⟨?_, rfl⟩
  intro w hw hsafe
  have h1 : SPF.parse (str2bytes "v=spf1 foo " ++ w)
      = parseTerms (w.length + 4 + 1) (102 :: 111 :: 111 :: 32 :: w) ⟨.Spf1, [], []⟩ := rfl
  have hms : macro_string false w = .ok ((Macro.Literal w, 32), []) := by
    unfold macro_string
    rw [ms_go_literal w (w.length + 1) [] [] (Nat.lt_succ_self _) hsafe]
    simp [flushLit, hw]
  have hnt : next_term (102 :: 111 :: 111 :: 32 :: w)
      = (some (((102 : Nat) ||| (111 <<< 8)) ||| (111 <<< 16), .Pass, 32), w) := rfl
  rw [h1, parseTerms, hnt]
  norm_num [Kw.A, Kw.ALL, Kw.MX, Kw.EXISTS, Kw.EXP, Kw.INCLUDE, Kw.IP4, Kw.IP6,
    Kw.PTR, Kw.REDIRECT]
  rw [hms]
  norm_num
  rw [show w.length + 4 = w.length + 3 + 1 from rfl, parseTerms]
  rfl

/-- C8 (witness): dropping the bytes `"xy"` after the unknown term. -/
theorem spf_parse_unknown_bare_term_witness :
    SPF.parse (str2bytes "v=spf1 foo " ++ [120, 121]) = .ok ⟨.Spf1, [], []⟩ :=
  spf_parse_unknown_bare_term.1 [120, 121] (by simp) (by decide)

/-- `dual_cidr_length`'s loop always clamps: the returned lengths never
exceed 32 (IPv4) and 128 (IPv6). -/
theorem dual_go_le :
    ∀ (l : Bytes) (a4 a6 : Nat) (in6 : Bool) (c4 c6 : Nat) (r : Bytes),
      dual_go l a4 a6 in6 = .ok ((c4, c6), r) → c4 ≤ 32 ∧ c6 ≤ 128 := by
  intro l
  induction l with
  | nil =>
    intro a4 a6 in6 c4 c6 r h
    simp only [dual_go, Except.ok.injEq, Prod.mk.injEq] at h
    obtain ⟨⟨hc4, hc6⟩, -⟩ := h
    exact ⟨hc4 ▸ Nat.min_le_right _ _, hc6 ▸ Nat.min_le_right _ _⟩
  | cons c t ih =>
    intro a4 a6 in6 c4 c6 r h
    simp only [dual_go] at h
    split_ifs at h
    all_goals
      first
      | exact ih _ _ _ _ _ _ h
      | (simp only [Except.ok.injEq, Prod.mk.injEq] at h
         obtain ⟨⟨hc4, hc6⟩, -⟩ := h
         exact ⟨hc4 ▸ Nat.min_le_right _ _, hc6 ▸ Nat.min_le_right _ _⟩)

/-- `dual_cidr_length` always clamps to the family maxima. -/
theorem dual_cidr_length_le {l : Bytes} {c4 c6 : Nat} {r : Bytes}
    (h : dual_cidr_length l = .ok ((c4, c6), r)) : c4 ≤ 32 ∧ c6 ≤ 128 :=
  dual_go_le l 255 255 false c4 c6 r h

/-- The clamp invariant holds for either mechanism of the `A | MX` arm. -/
theorem cidrOk_mkAorMx {term : Nat} {ms : Macro} {c4 c6 : Nat}
    (h4 : c4 ≤ 32) (h6 : c6 ≤ 128) : cidrOk (mkAorMx term ms c4 c6) := by
  unfold mkAorMx
  split <;> exact ⟨h4, h6⟩

/-- Pushing a clamped directive preserves the clamp invariant of the
directive list. -/
theorem cidrOk_pushDir {spf : SPF} {q : Qualifier} {m : Mechanism}
    (hacc : ∀ d ∈ spf.directives, cidrOk d.mechanism) (hm : cidrOk m) :
    ∀ d ∈ (pushDir spf q m).directives, cidrOk d.mechanism := by
  intro d hd
  simp only [pushDir, List.mem_append, List.mem_singleton] at hd
  rcases hd with h | rfl
  · exact hacc d h
  · exact hm

set_option maxHeartbeats 1600000 in
/-- The record loop only ever pushes clamped CIDR lengths. -/
theorem parseTerms_cidrOk :
    ∀ (fuel : Nat) (l : Bytes) (spf : SPF),
      (∀ d ∈ spf.directives, cidrOk d.mechanism) →
      ∀ r : SPF, parseTerms fuel l spf = .ok r → ∀ d ∈ r.directives, cidrOk d.mechanism := by
  intro fuel
  induction fuel with
  | zero =>
    intro l spf hacc r h
    exact absurd h (by simp [parseTerms])
  | succ fuel ih =>
    intro l spf hacc r h
    rw [parseTerms] at h
    split at h
    · cases h
      exact hacc
    · rename_i term q s0 l1 heq
      split_ifs at h
      -- A | MX, bare (stop ' '): defaults 32 / 128
      · exact ih _ _ (cidrOk_pushDir hacc (cidrOk_mkAorMx (by norm_num) (by norm_num))) _ h
      -- A | MX with ':'/'=': macro-string then optional dual CIDR
      · rcases hms : macro_string false l1 with e | ⟨⟨ms, stop1⟩, l2⟩ <;> simp only [hms] at h
        · exact absurd h (by simp)
        · split_ifs at h
          · rcases hd : dual_cidr_length l2 with e | ⟨⟨c4, c6⟩, l3⟩ <;> simp only [hd] at h
            · exact absurd h (by simp)
            · obtain ⟨h4, h6⟩ := dual_cidr_length_le hd
              exact ih _ _ (cidrOk_pushDir hacc (cidrOk_mkAorMx h4 h6)) _ h
          · exact ih _ _ (cidrOk_pushDir hacc (cidrOk_mkAorMx (by norm_num) (by norm_num))) _ h
      -- A | MX with '/': dual CIDR directly
      · rcases hd : dual_cidr_length l1 with e | ⟨⟨c4, c6⟩, l2⟩ <;> simp only [hd] at h
        · exact absurd h (by simp)
        · obtain ⟨h4, h6⟩ := dual_cidr_length_le hd
          exact ih _ _ (cidrOk_pushDir hacc (cidrOk_mkAorMx h4 h6)) _ h
      -- ALL
      · refine ih _ _ (cidrOk_pushDir hacc ?_) _ h
        trivial
      -- INCLUDE
      · rcases hms : macro_string false l1 with e | ⟨⟨ms, stop1⟩, l2⟩ <;> simp only [hms] at h
        · exact absurd h (by simp)
        · split_ifs at h
          refine ih _ _ (cidrOk_pushDir hacc ?_) _ h
          trivial
      -- EXISTS
      · rcases hms : macro_string false l1 with e | ⟨⟨ms, stop1⟩, l2⟩ <;> simp only [hms] at h
        · exact absurd h (by simp)
        · split_ifs at h
          refine ih _ _ (cidrOk_pushDir hacc ?_) _ h
          trivial
      -- IP4
      · rcases hip : ip4 l1 with e | ⟨⟨addr, stop1⟩, l2⟩ <;> simp only [hip] at h
        · exact absurd h (by simp)
        · split_ifs at h
          · rcases hcl : cidr_length l2 with e | ⟨cl, l3⟩ <;> simp only [hcl] at h
            · exact absurd h (by simp)
            · refine ih _ _ (cidrOk_pushDir hacc ?_) _ h
              exact Nat.min_le_left _ _
          · refine ih _ _ (cidrOk_pushDir hacc ?_) _ h
            exact Nat.le_refl 32
      -- IP6
      · rcases hip : ip6 l1 with e | ⟨⟨addr, stop1⟩, l2⟩ <;> simp only [hip] at h
        · exact absurd h (by simp)
        · split_ifs at h
          · rcases hcl : cidr_length l2 with e | ⟨cl, l3⟩ <;> simp only [hcl] at h
            · exact absurd h (by simp)
            · refine ih _ _ (cidrOk_pushDir hacc ?_) _ h
              exact Nat.min_le_left _ _
          · refine ih _ _ (cidrOk_pushDir hacc ?_) _ h
            exact Nat.le_refl 128
      -- PTR with ':' argument
      · rcases hms : macro_string false l1 with e | ⟨⟨ms, stop1⟩, l2⟩ <;> simp only [hms] at h
        · exact absurd h (by simp)
        · split_ifs at h
          refine ih _ _ (cidrOk_pushDir hacc ?_) _ h
          trivial
      -- PTR bare
      · refine ih _ _ (cidrOk_pushDir hacc ?_) _ h
        trivial
      -- REDIRECT
      · rcases hms : macro_string false l1 with e | ⟨⟨ms, stop1⟩, l2⟩ <;> simp only [hms] at h
        · exact absurd h (by simp)
        · split_ifs at h
          exact ih l2 (pushMod spf (.Redirect ms)) (fun d hd => hacc d hd) r h
      -- EXP
      · rcases hms : macro_string false l1 with e | ⟨⟨ms, stop1⟩, l2⟩ <;> simp only [hms] at h
        · exact absurd h (by simp)
        · split_ifs at h
          exact ih l2 (pushMod spf (.Explanation ms)) (fun d hd => hacc d hd) r h
      -- unknown keyword
      · rcases hms : macro_string false l1 with e | ⟨⟨ms, stop1⟩, l2⟩ <;> simp only [hms] at h
        · exact absurd h (by simp)
        · split_ifs at h
          exact ih _ _ (fun d hd => hacc d hd) _ h

/-- C6: every mechanism an accepted record stores is clamped — `A`/`Mx`
carry `ip4_cidr_length ≤ 32` and `ip6_cidr_length ≤ 128`, `Ip4` carries a
length `≤ 32` and `Ip6` a length `≤ 128` — and `"v=spf1 a//96 +all"` parses
with the `A` mechanism holding the defaulted `ip4_cidr_length = 32` and the
explicit `ip6_cidr_length = 96`. -/
theorem spf_parse_cidr_clamped :
    (∀ (bs : Bytes) (r : SPF), SPF.parse bs = .ok r → ∀ d ∈ r.directives, cidrOk d.mechanism)
    ∧ SPF.parse (str2bytes "v=spf1 a//96 +all")
        = .ok ⟨.Spf1, [⟨.Pass, .A Macro.None 32 96⟩, ⟨.Pass, .All⟩], []⟩ := by
  refine ⟨?_, rfl⟩
  intro bs r h
  rcases hk : key bs with ⟨k, r1⟩
  simp only [SPF.parse, hk] at h
  cases k with
  | none => simp at h
  | some k =>
    by_cases h118 : k = 118
    · subst h118
      simp only [ne_eq, not_true_eq_false, if_false] at h
      rcases hmb : match_bytes [115, 112, 102, 49] r1 with ⟨m, r2⟩
      simp only [hmb] at h
      cases m with
      | false => simp at h
      | true =>
        simp only [Bool.not_true, Bool.false_eq_true, if_false] at h
        cases r2 with
        | nil => exact parseTerms_cidrOk 1 [] ⟨.Spf1, [], []⟩ (by simp) r h
        | cons c r3 =>
          by_cases hws : isWS c
          · simp only [hws, Bool.not_true, Bool.false_eq_true, if_false] at h
            exact parseTerms_cidrOk (r3.length + 1) r3 ⟨.Spf1, [], []⟩ (by simp) r h
          · simp [hws] at h
    · simp [h118] at h

/-- C6 (witness): the clamp invariant at the record `"v=spf1 a//96 +all"`. -/
theorem spf_parse_cidr_clamped_witness :
    cidrOk (Mechanism.A Macro.None 32 96) :=
  spf_parse_cidr_clamped.1 (str2bytes "v=spf1 a//96 +all")
    ⟨.Spf1, [⟨.Pass, .A Macro.None 32 96⟩, ⟨.Pass, .All⟩], []⟩ rfl
    ⟨.Pass, .A Macro.None 32 96⟩ (by simp)

/-- Hex digits are buffered unchanged into the pending group: running the
`ip6` loop over hex-digit bytes followed by anything else just extends the
part buffer (at most 4 digits fit). -/
theorem ip6_go_hex :
    ∀ (ds rest : Bytes) (ip : List Nat) (pos q4 : Nat) (part : Bytes) (zgp : Option Nat),
      (∀ c ∈ ds, isHexDigit c = true) → part.length + ds.length ≤ 4 →
      ip6_go (ds ++ rest) ip pos q4 part zgp = ip6_go rest ip pos q4 (part ++ ds) zgp := by
  intro ds
  induction ds with
  | nil =>
    intro rest ip pos q4 part zgp _ _
    simp
  | cons c t ih =>
    intro rest ip pos q4 part zgp hhex hlen
    have hc := hhex c (List.mem_cons_self _ _)
    have hlt : part.length < 4 := by
      simp only [List.length_cons] at hlen
      omega
    rw [List.cons_append]
    simp only [ip6_go, hc, hlt, if_true, ite_true]
    rw [ih rest ip pos q4 (part ++ [c]) zgp (fun x hx => hhex x (List.mem_cons_of_mem _ hx))
        (by simp at hlen ⊢; omega)]
    simp [List.append_assoc]

/-- A `:` after a nonempty pending group writes the group's hex value at the
current position and advances. -/
theorem ip6_go_colon :
    ∀ (rest : Bytes) (ip : List Nat) (pos q4 : Nat) (part : Bytes) (zgp : Option Nat),
      pos < 8 → part ≠ [] →
      ip6_go (58 :: rest) ip pos q4 part zgp
        = ip6_go rest (ip.set pos (hexParse part)) (pos + 1) q4 [] zgp := by
  intro rest ip pos q4 part zgp hp hne
  simp only [ip6_go, show isHexDigit 58 = false from rfl, Bool.false_eq_true, if_false,
    ite_false, ite_true, if_true, hp, hne, ne_eq, not_false_eq_true]

/-- Taking one past an updated position splits off the written value. -/
theorem take_succ_set {l : List Nat} {n : Nat} (h : n < l.length) (v : Nat) :
    (l.set n v).take (n + 1) = l.take n ++ [v] := by
  rw [List.set_eq_take_cons_drop v h, List.take_append_eq_append_take,
    List.take_of_length_le (by simp only [List.length_take]; omega)]
  have h1 : n + 1 - (List.take n l).length = 1 := by
    simp [List.length_take]
    omega
  rw [h1]
  rfl

/-- Running the `ip6` loop over full-form groups joined by `:` writes each
group's value in sequence and accepts at the end of input. -/
theorem ip6_go_groups :
    ∀ (gs : List Bytes) (ip : List Nat) (pos : Nat),
      ip.length = 8 → pos + gs.length = 8 →
      (∀ g ∈ gs, hexGroup g) →
      ip6_go (joinColon gs) ip pos 0 [] none
        = .ok ((ip.take pos ++ gs.map hexParse, 32), []) := by
  intro gs
  induction gs with
  | nil =>
    intro ip pos hlen hpos _
    have hp : pos = 8 := by simpa using hpos
    subst hp
    rw [show joinColon [] = [] from rfl]
    simp only [ip6_go, ip6_finish, Except.bind]
    norm_num
    omega
  | cons g t ih =>
    intro ip pos hlen hpos hgs
    obtain ⟨hgne, hglen, hghex⟩ := hgs g (List.mem_cons_self _ _)
    cases t with
    | nil =>
      have hp : pos = 7 := by
        simp only [List.length_cons, List.length_nil] at hpos
        omega
      subst hp
      have hx := ip6_go_hex g [] ip 7 0 [] none hghex (by simpa using hglen)
      rw [List.append_nil, List.nil_append] at hx
      rw [show joinColon [g] = g from rfl, hx]
      simp only [ip6_go]
      cases g with
      | nil => exact absurd rfl hgne
      | cons a g2 =>
        simp only [ip6_finish, Except.bind]
        norm_num
        rw [List.set_eq_take_cons_drop _ (by omega)]
        rw [List.drop_eq_nil_of_le (by omega)]
    | cons g2 t2 =>
      have hp8 : pos < 8 := by
        simp only [List.length_cons] at hpos
        omega
      rw [show joinColon (g :: g2 :: t2) = g ++ 58 :: joinColon (g2 :: t2) from rfl,
        ip6_go_hex g (58 :: joinColon (g2 :: t2)) ip pos 0 [] none hghex
          (by simpa using hglen),
        List.nil_append,
        ip6_go_colon (joinColon (g2 :: t2)) ip pos 0 g none hp8 hgne,
        ih (ip.set pos (hexParse g)) (pos + 1) (by simp [hlen])
          (by simp only [List.length_cons] at hpos ⊢; omega)
          (fun x hx => hgs x (List.mem_cons_of_mem _ hx))]
      rw [take_succ_set (by omega) (hexParse g)]
      simp [List.append_assoc]

/-- C4 (counterexample to the original claim's second-`::` clause): the
colon branch of `ip6` only rejects a compression run opening at a group
position different from the current one, so a second `::` formed by
immediately repeated colons extends the same run and is accepted —
`"::::"` parses to the all-zero address and `"1::::2"` parses as
`"1::2"`. -/
theorem ip6_repeated_colon_accepted :
    ip6 (str2bytes "::::") = .ok (([0, 0, 0, 0, 0, 0, 0, 0], 32), [])
    ∧ ip6 (str2bytes "1::::2") = .ok (([1, 0, 0, 0, 0, 0, 0, 2], 32), []) :=
  ⟨rfl, rfl⟩

/-- C4 (amended): `ip6` agrees with the standard IPv6 textual grammar on
the positive forms. Every full-form address — eight groups of 1-4 hex
digits joined by `:` — parses to exactly the eight group values; the
standard `::`-compressed and dotted-quad forms of the claim parse to their
standard values; and more than 8 groups, a second `::` opening a
compression run at a different group position, and a dotted-quad with more
than 3 trailing octets each fail with `InvalidIp6` — while a second `::`
formed by immediately repeated colons extends the same compression run and
is accepted (`"::::"` is the all-zero address, `"1::::2"` is `"1::2"`). -/
theorem ip6_roundtrip :
    (∀ parts : List Bytes, parts.length = 8 → (∀ p ∈ parts, hexGroup p) →
        ip6 (joinColon parts) = .ok ((parts.map hexParse, 32), []))
    ∧ ip6 (str2bytes "::1") = .ok (([0, 0, 0, 0, 0, 0, 0, 1], 32), [])
    ∧ ip6 (str2bytes "FF01::101") = .ok (([65281, 0, 0, 0, 0, 0, 0, 257], 32), [])
    ∧ ip6 (str2bytes "2001:DB8::8:800:200C:417A")
        = .ok (([8193, 3512, 0, 0, 8, 2048, 8204, 16762], 32), [])
    ∧ ip6 (str2bytes "2001:DB8:0:0:8:800:200C::")
        = .ok (([8193, 3512, 0, 0, 8, 2048, 8204, 0], 32), [])
    ∧ ip6 (str2bytes "a:b::c:d") = .ok (([10, 11, 0, 0, 0, 0, 12, 13], 32), [])
    ∧ ip6 (str2bytes "::13.1.68.3") = .ok (([0, 0, 0, 0, 0, 0, 3329, 17411], 32), [])
    ∧ ip6 (str2bytes "0:0:0:0:0:FFFF:129.144.52.38")
        = .ok (([0, 0, 0, 0, 0, 65535, 33168, 13350], 32), [])
    ∧ ip6 (str2bytes "0:0:0:0:0:0:0:1:1") = .error .InvalidIp6
    ∧ ip6 (str2bytes "a::b::c") = .error .InvalidIp6
    ∧ ip6 (str2bytes "0:0:0:0::0:0:0:0") = .error .InvalidIp6
    ∧ ip6 (str2bytes "::1::2") = .error .InvalidIp6
    ∧ ip6 (str2bytes "0:0:0:0:0:0:13.1.68.3.4") = .error .InvalidIp6
    ∧ ip6 (str2bytes "::::") = .ok (([0, 0, 0, 0, 0, 0, 0, 0], 32), [])
    ∧ ip6 (str2bytes "1::::2") = .ok (([1, 0, 0, 0, 0, 0, 0, 2], 32), []) := by
  refine ⟨?_, rfl, rfl, rfl, rfl, rfl, rfl, rfl, rfl, rfl, rfl, rfl, rfl, rfl, rfl⟩
  intro parts hlen hgs
  unfold ip6
  rw [ip6_go_groups parts [0, 0, 0, 0, 0, 0, 0, 0] 0 (by rfl) (by simpa using hlen) hgs]
  rfl

/-- C4 (witness): the full form `"1:2:3:4:5:6:7:8"` via the universal part. -/
theorem ip6_roundtrip_witness :
    ip6 (joinColon [[49], [50], [51], [52], [53], [54], [55], [56]])
      = .ok (([1, 2, 3, 4, 5, 6, 7, 8], 32), []) :=
  ip6_roundtrip.1 [[49], [50], [51], [52], [53], [54], [55], [56]] (by rfl) (by decide)

/-- Every classified header appends exactly one entry to `headers`. -/
theorem collectStep_headers_length (P : Collab) (acc : AuthenticatedMessage × Bool)
    (hv : AuthenticatedHeader × Bytes) :
    (collectStep P acc hv).1.headers.length = acc.1.headers.length + 1 := by
  rcases hv with ⟨h, v⟩
  cases h with
  | Ds n => cases hs : P.dkim_parse v <;> simp [collectStep, hs]
  | Aar n => simp [collectStep]
  | Ams n => cases hs : P.ams_parse v <;> simp [collectStep, hs]
  | As n => simp [collectStep]
  | From n => simp [collectStep]
  | Other n => simp [collectStep]

/-- The classification loop records one `headers` entry per input header. -/
theorem collect_headers_length (P : Collab) :
    ∀ (hdrs : List (AuthenticatedHeader × Bytes)) (acc : AuthenticatedMessage × Bool),
      (hdrs.foldl (collectStep P) acc).1.headers.length = acc.1.headers.length + hdrs.length := by
  intro hdrs
  induction hdrs with
  | nil => intro acc; simp
  | cons hv t ih =>
    intro acc
    rw [List.foldl_cons, ih, collectStep_headers_length]
    simp only [List.length_cons]
    omega

/-- C10: `AuthenticatedMessage::parse` returns no message exactly when the
header stream is empty — nothing partial is ever returned for an input with
no headers, and any input with a header yields a message. -/
theorem message_parse_none_iff :
    ∀ (P : Collab) (hdrs : List (AuthenticatedHeader × Bytes)) (raw : Bytes),
      AuthenticatedMessage.parse P hdrs raw = none ↔ hdrs = [] := by
  intro P hdrs raw
  constructor
  · intro h
    unfold AuthenticatedMessage.parse parseWith at h
    by_cases hc : (collect P hdrs).1.headers = []
    · have hl := collect_headers_length P hdrs (emptyMessage, false)
      rw [← collect] at hl
      rw [hc] at hl
      simp [emptyMessage] at hl
      exact List.length_eq_zero.mp hl.symm
    · simp only [hc, if_false, ite_false] at h
      cases h
  · intro h
    subst h
    rfl

/-- C3: a DKIM-Signature parse failure is local to that header — with one
failing and one succeeding DKIM header the whole parse succeeds, keeps both
headers in order (failure recorded with its raw value), and computes a body
hash only for the tuple of the successful signature. -/
theorem message_parse_dkim_failure_local :
    ∀ (P : Collab) (n1 v1 n2 v2 raw : Bytes) (e : Nat) (sig : DkimSig),
      P.dkim_parse v1 = .error e → P.dkim_parse v2 = .ok sig →
      AuthenticatedMessage.parse P [(.Ds n1, v1), (.Ds n2, v2)] raw =
        some { headers := [(n1, v1), (n2, v2)], from_addrs := [], body := raw,
               body_hashes := [(sig.cb, HashAlgorithm.ofAlg sig.a, sig.l,
                 computeHash P sig.cb (HashAlgorithm.ofAlg sig.a) sig.l raw)],
               dkim_headers := [⟨n1, v1, .error e⟩, ⟨n2, v2, .ok sig⟩],
               ams_headers := [], as_headers := [], aar_headers := [] } := by
  intro P n1 v1 n2 v2 raw e sig h1 h2
  unfold AuthenticatedMessage.parse parseWith collect
  simp [collectStep, h1, h2, emptyMessage, bhInsert]

/-- C3 (witness): a concrete failing/succeeding DKIM header pair. -/
theorem message_parse_dkim_failure_local_witness :
    AuthenticatedMessage.parse testCollab [(.Ds [5], [0]), (.Ds [6], [1])] [] =
      some { headers := [([5], [0]), ([6], [1])], from_addrs := [], body := [],
             body_hashes := [(1, HashAlgorithm.Sha1, 2, [])],
             dkim_headers := [⟨[5], [0], .error 7⟩, ⟨[6], [1], .ok ⟨1, .RsaSha1, 2⟩⟩],
             ams_headers := [], as_headers := [], aar_headers := [] } :=
  message_parse_dkim_failure_local testCollab [5] [0] [6] [1] [] 7 ⟨1, .RsaSha1, 2⟩ rfl rfl

/-- The duplicate test of the body-hash work list decides membership of the
key tuple. -/
theorem bhAny_iff (bhs : List (Nat × HashAlgorithm × Nat × Bytes)) (cb : Nat)
    (ha : HashAlgorithm) (l : Nat) :
    (bhs.any (fun e => e.1 == cb && e.2.1 == ha && e.2.2.1 == l)) = true
      ↔ (cb, ha, l) ∈ bhs.map bhKey := by
  simp only [List.any_eq_true, List.mem_map, Bool.and_eq_true, beq_iff_eq]
  constructor
  · rintro ⟨e, he, ⟨h1, h2⟩, h3⟩
    exact ⟨e, he, by simp [bhKey, Prod.ext_iff, h1, h2, h3]⟩
  · rintro ⟨e, he, hh⟩
    obtain ⟨h1, h2, h3⟩ : e.1 = cb ∧ e.2.1 = ha ∧ e.2.2.1 = l := by
      simpa [bhKey, Prod.ext_iff] using hh
    exact ⟨e, he, ⟨h1, h2⟩, h3⟩

/-- Inserting into the work list either leaves the key list unchanged (key
already present) or appends the new key. -/
theorem bhInsert_keys (bhs : List (Nat × HashAlgorithm × Nat × Bytes)) (cb : Nat)
    (ha : HashAlgorithm) (l : Nat) :
    (bhInsert bhs cb ha l).map bhKey
      = if ((cb, ha, l) : Nat × HashAlgorithm × Nat) ∈ bhs.map bhKey then bhs.map bhKey
        else bhs.map bhKey ++ [(cb, ha, l)] := by
  unfold bhInsert
  by_cases hm : (cb, ha, l) ∈ bhs.map bhKey
  · rw [if_pos ((bhAny_iff bhs cb ha l).mpr hm), if_pos hm]
  · rw [if_neg (fun hc => hm ((bhAny_iff bhs cb ha l).mp hc)), if_neg hm]
    simp [bhKey]

/-- One classification step changes the key list exactly by the requested
tuple (inserted if absent), and by nothing for non-signature headers. -/
theorem collectStep_bhKeys (P : Collab) (acc : AuthenticatedMessage × Bool)
    (hv : AuthenticatedHeader × Bytes) :
    (collectStep P acc hv).1.body_hashes.map bhKey
      = match reqOf P hv with
        | none => acc.1.body_hashes.map bhKey
        | some k =>
          if (k : Nat × HashAlgorithm × Nat) ∈ acc.1.body_hashes.map bhKey then
            acc.1.body_hashes.map bhKey
          else acc.1.body_hashes.map bhKey ++ [k] := by
  rcases hv with ⟨h, v⟩
  cases h with
  | Ds n =>
    cases hs : P.dkim_parse v with
    | error e => simp [collectStep, reqOf, hs]
    | ok s => simp [collectStep, reqOf, hs, bhInsert_keys]
  | Aar n => simp [collectStep, reqOf]
  | Ams n =>
    cases hs : P.ams_parse v with
    | error e => simp [collectStep, reqOf, hs]
    | ok s => simp [collectStep, reqOf, hs, bhInsert_keys]
  | As n => simp [collectStep, reqOf]
  | From n => simp [collectStep, reqOf]
  | Other n => simp [collectStep, reqOf]

/-- Across the whole classification loop the key list stays duplicate-free
and collects exactly the requested tuples. -/
theorem collect_bhKeys (P : Collab) :
    ∀ (hdrs : List (AuthenticatedHeader × Bytes)) (acc : AuthenticatedMessage × Bool),
      (acc.1.body_hashes.map bhKey).Nodup →
      ((hdrs.foldl (collectStep P) acc).1.body_hashes.map bhKey).Nodup
      ∧ ∀ k, k ∈ (hdrs.foldl (collectStep P) acc).1.body_hashes.map bhKey ↔
          (k ∈ acc.1.body_hashes.map bhKey ∨ k ∈ requestedTuples P hdrs) := by
  intro hdrs
  induction hdrs with
  | nil =>
    intro acc hnd
    refine ⟨hnd, fun k => ?_⟩
    simp [requestedTuples]
  | cons hv t ih =>
    intro acc hnd
    rw [List.foldl_cons]
    have hstep := collectStep_bhKeys P acc hv
    have hnd1 : ((collectStep P acc hv).1.body_hashes.map bhKey).Nodup := by
      rw [hstep]
      cases hr : reqOf P hv with
      | none => exact hnd
      | some k0 =>
        by_cases hm : k0 ∈ acc.1.body_hashes.map bhKey
        · simp only [if_pos hm]
          exact hnd
        · simp only [if_neg hm]
          simp [List.nodup_append, hnd, hm]
    obtain ⟨hnd2, hmem⟩ := ih (collectStep P acc hv) hnd1
    refine ⟨hnd2, fun k => ?_⟩
    rw [hmem k]
    cases hr : reqOf P hv with
    | none =>
      simp only [hr] at hstep
      rw [hstep]
      simp [requestedTuples, List.filterMap_cons, hr]
    | some k0 =>
      simp only [hr] at hstep
      rw [hstep]
      by_cases hm : k0 ∈ acc.1.body_hashes.map bhKey
      · rw [if_pos hm]
        simp only [requestedTuples, List.filterMap_cons, hr, List.mem_cons]
        constructor
        · rintro (h | h)
          · exact Or.inl h
          · exact Or.inr (Or.inr h)
        · rintro (h | h | h)
          · exact Or.inl h
          · exact Or.inl (h ▸ hm)
          · exact Or.inr h
      · rw [if_neg hm]
        simp only [requestedTuples, List.filterMap_cons, hr, List.mem_cons, List.mem_append,
          List.mem_singleton]
        tauto

/-- C9: in every parsed message the `(canonicalization, hash-algorithm,
length-limit)` keys of `body_hashes` are pairwise distinct, and a key is
present exactly when some successfully parsed DKIM or ARC message signature
requested it. -/
theorem message_parse_bh_keys :
    ∀ (P : Collab) (hdrs : List (AuthenticatedHeader × Bytes)) (raw : Bytes)
      (m : AuthenticatedMessage),
      AuthenticatedMessage.parse P hdrs raw = some m →
      (m.body_hashes.map bhKey).Nodup
      ∧ ∀ k, k ∈ m.body_hashes.map bhKey ↔ k ∈ requestedTuples P hdrs := by
  intro P hdrs raw m h
  unfold AuthenticatedMessage.parse parseWith at h
  by_cases hc : (collect P hdrs).1.headers = []
  · simp [hc] at h
  · simp only [hc, if_false, ite_false] at h
    injection h with h
    have hbh : m.body_hashes = (collect P hdrs).1.body_hashes.map
        (fun e => (e.1, e.2.1, e.2.2.1, computeHash P e.1 e.2.1 e.2.2.1 raw)) := by
      rw [← h]
      split <;> rfl
    have hkeys : m.body_hashes.map bhKey = (collect P hdrs).1.body_hashes.map bhKey := by
      rw [hbh, List.map_map]
      rfl
    obtain ⟨hnd, hmem⟩ := collect_bhKeys P hdrs (emptyMessage, false) (by simp [emptyMessage])
    rw [hkeys]
    refine ⟨hnd, fun k => ?_⟩
    rw [show collect P hdrs = hdrs.foldl (collectStep P) (emptyMessage, false) from rfl,
      hmem k]
    simp [emptyMessage]

/-- C9 (witness): two DKIM headers requesting the same tuple produce one
key. -/
theorem message_parse_bh_keys_witness :
    (([(1, HashAlgorithm.Sha1, 2)] : List (Nat × HashAlgorithm × Nat)).Nodup)
    ∧ ∀ k, k ∈ ([(1, HashAlgorithm.Sha1, 2)] : List (Nat × HashAlgorithm × Nat))
        ↔ k ∈ requestedTuples testCollab [(.Ds [5], [1]), (.Ds [6], [1])] := by
  have h := message_parse_bh_keys testCollab [(.Ds [5], [1]), (.Ds [6], [1])] []
    { headers := [([5], [1]), ([6], [1])], from_addrs := [], body := [],
      body_hashes := [(1, HashAlgorithm.Sha1, 2, [])],
      dkim_headers := [⟨[5], [1], .ok ⟨1, .RsaSha1, 2⟩⟩, ⟨[6], [1], .ok ⟨1, .RsaSha1, 2⟩⟩],
      ams_headers := [], as_headers := [], aar_headers := [] } rfl
  exact h

/-- The executable insertion sort meets the `sort_unstable_by` contract. -/
theorem sortByInst_sortOk : SortOk (fun {α} gi hs => @sortByInst α gi hs) := by
  intro α gi hs
  haveI ht : IsTotal (Header α) (fun a b => instOf gi a ≤ instOf gi b) :=
    ⟨fun _ _ => Nat.le_total _ _⟩
  haveI htr : IsTrans (Header α) (fun a b => instOf gi a ≤ instOf gi b) :=
    ⟨fun _ _ _ => Nat.le_trans⟩
  exact ⟨List.sorted_insertionSort _ hs, List.perm_insertionSort _ hs⟩

/-- The reversed insertion sort also meets the contract. -/
theorem sortByInstRev_sortOk : SortOk (fun {α} gi hs => @sortByInstRev α gi hs) := by
  intro α gi hs
  obtain ⟨h1, h2⟩ := sortByInst_sortOk α gi hs.reverse
  exact ⟨h1, h2.trans hs.reverse_perm⟩

/-- C2 (counterexample to the original claim's stability clause): the code
sorts with the standard library's `sort_unstable_by`, which promises only a
sorted permutation. Under an admissible implementation of that contract
(`sortByInstRev`: sorted and a permutation), an error-free message with two
ARC-Seal headers of equal instance number comes back with the headers in
reversed appearance order — the collections are not stably sorted. -/
theorem message_parse_arc_not_stable :
    SortOk (fun {α} gi hs => @sortByInstRev α gi hs)
    ∧ (collect testCollab [(.As [1], [1]), (.As [2], [1])]).2 = false
    ∧ (collect testCollab [(.As [1], [1]), (.As [2], [1])]).1.as_headers.map
        (fun h => h.name) = [[1], [2]]
    ∧ (parseWith (fun {α} gi hs => @sortByInstRev α gi hs) testCollab
          [(.As [1], [1]), (.As [2], [1])] []).map
        (fun m => m.as_headers.map (fun h => h.name))
      = some [[2], [1]] :=
  ⟨sortByInstRev_sortOk, rfl, rfl, rfl⟩

/-- C2 (amended): when the sticky ARC error flag is unset and at least one
ARC-Seal header was collected, the parse returns the three ARC collections
each being the image of the collected list under the `sort_unstable_by`
routine — hence sorted ascending by instance number and a permutation of
the collected headers, with the relative order of equal-instance headers
unspecified (the unstable sort guarantees no stability); when the flag is
set, no sort is performed and all three collections keep their collection
(header-appearance) order. Stated for every routine meeting the
`sort_unstable_by` contract; `AuthenticatedMessage.parse` is `parseWith` at
one admissible routine, so its outputs are sorted permutations. -/
theorem message_parse_arc_sort :
    (∀ (srt : {α : Type} → (α → Nat) → List (Header α) → List (Header α)),
      ∀ (P : Collab) (hdrs : List (AuthenticatedHeader × Bytes)) (raw : Bytes),
      (collect P hdrs).1.headers ≠ [] →
      (((collect P hdrs).2 = false → (collect P hdrs).1.as_headers ≠ [] →
        (parseWith srt P hdrs raw).map
            (fun m => (m.as_headers, m.ams_headers, m.aar_headers))
          = some (srt Seal.i (collect P hdrs).1.as_headers,
                  srt ArcSig.i (collect P hdrs).1.ams_headers,
                  srt Results.i (collect P hdrs).1.aar_headers))
       ∧ ((collect P hdrs).2 = true →
        (parseWith srt P hdrs raw).map
            (fun m => (m.as_headers, m.ams_headers, m.aar_headers))
          = some ((collect P hdrs).1.as_headers, (collect P hdrs).1.ams_headers,
                  (collect P hdrs).1.aar_headers))))
    ∧ (∀ (P : Collab) (hdrs : List (AuthenticatedHeader × Bytes)) (raw : Bytes),
        AuthenticatedMessage.parse P hdrs raw
          = parseWith (fun {α} gi hs => @sortByInst α gi hs) P hdrs raw)
    ∧ SortOk (fun {α} gi hs => @sortByInst α gi hs)
    ∧ (∀ (P : Collab) (hdrs : List (AuthenticatedHeader × Bytes)) (raw : Bytes),
        (collect P hdrs).2 = false → (collect P hdrs).1.as_headers ≠ [] →
        ∀ m, AuthenticatedMessage.parse P hdrs raw = some m →
          (List.Sorted (fun a b => instOf Seal.i a ≤ instOf Seal.i b) m.as_headers
            ∧ List.Perm m.as_headers (collect P hdrs).1.as_headers)
          ∧ (List.Sorted (fun a b => instOf ArcSig.i a ≤ instOf ArcSig.i b) m.ams_headers
            ∧ List.Perm m.ams_headers (collect P hdrs).1.ams_headers)
          ∧ (List.Sorted (fun a b => instOf Results.i a ≤ instOf Results.i b) m.aar_headers
            ∧ List.Perm m.aar_headers (collect P hdrs).1.aar_headers)) := by
  refine ⟨?_, ?_, sortByInst_sortOk, ?_⟩
  · intro srt P hdrs raw hc
    constructor
    · intro hflag hne
      have h1 : (collect P hdrs).1.as_headers.isEmpty = false :=
        List.isEmpty_eq_false.mpr hne
      unfold parseWith
      simp [hflag, h1, hc]
    · intro hflag
      unfold parseWith
      simp [hflag, hc]
  · intro P hdrs raw
    rfl
  · intro P hdrs raw hflag hne m hm
    have h1 : (collect P hdrs).1.as_headers.isEmpty = false :=
      List.isEmpty_eq_false.mpr hne
    by_cases hc : (collect P hdrs).1.headers = []
    · unfold AuthenticatedMessage.parse parseWith at hm
      simp [hc] at hm
    · have heq : (AuthenticatedMessage.parse P hdrs raw).map
          (fun m => (m.as_headers, m.ams_headers, m.aar_headers))
        = some (sortByInst Seal.i (collect P hdrs).1.as_headers,
                sortByInst ArcSig.i (collect P hdrs).1.ams_headers,
                sortByInst Results.i (collect P hdrs).1.aar_headers) := by
        unfold AuthenticatedMessage.parse parseWith
        simp [hflag, h1, hc]
      rw [hm] at heq
      simp only [Option.map_some', Option.some.injEq, Prod.mk.injEq] at heq
      obtain ⟨e1, e2, e3⟩ := heq
      rw [e1, e2, e3]
      exact ⟨sortByInst_sortOk Seal Seal.i _, sortByInst_sortOk ArcSig ArcSig.i _,
        sortByInst_sortOk Results Results.i _⟩

/-- C2 (witness): two error-free ARC-Seal headers with instance numbers 2
then 1 come back instance-sorted, 1 before 2. -/
theorem message_parse_arc_sort_witness :
    (AuthenticatedMessage.parse testCollab arcHdrs []).map
        (fun m => (m.as_headers, m.ams_headers, m.aar_headers))
      = some ([⟨[2], [1], .ok ⟨1⟩⟩, ⟨[1], [2], .ok ⟨2⟩⟩], [], []) := by
  have h := (message_parse_arc_sort.1 (fun {α} gi hs => @sortByInst α gi hs)
      testCollab arcHdrs [] (by decide)).1 rfl
    (fun hx => absurd (congrArg List.length hx) (by decide))
  exact h.trans rfl

end MailAuth
